import Mathlib

/-!
Verification of the track-size resolver of the textual repository
(`src/textual/_resolve.py`).

The resolver divides a one-dimensional space budget among a list of `Scalar`
size specifications (fixed cells, percentages, flex fractions), reserving a
fixed gutter between adjacent tracks, and returns integer `(offset, length)`
pairs.  We embed the Python code shallowly: `Fraction` becomes `ℚ`, the
`list` pipeline becomes `List` operations, and the run-time failure on an
unresolved (`None`) entry becomes an `Option` result.
-/

/-- Modelled from the spec: the `Scalar` value type is not part of the sampled
source (`src/textual/css/scalar.py` is absent); the spec describes it as a
tagged union of `Cells(n)` (absolute layout units), `Percent(p)` (fraction of a
reference dimension) and `Flex(weight)` (proportional share of leftover space).
The numeric payload (the Python `Scalar.value` float) is embedded as `ℚ`. -/
inductive Scalar where
  | cells (value : ℚ)
  | percent (value : ℚ)
  | fraction (value : ℚ)
deriving DecidableEq

/-- The numeric payload of a scalar (the Python `Scalar.value` attribute). -/
def Scalar.value : Scalar → ℚ
  | .cells v => v
  | .percent v => v
  | .fraction v => v

/-- Whether the scalar is a flex ("fraction") specification
(the Python `Scalar.is_fraction` property). -/
def Scalar.is_fraction : Scalar → Bool
  | .cells _ => false
  | .percent _ => false
  | .fraction _ => true

/-- Modelled from the spec: `resolve_concrete(ctx) -> Rational` of §4.2, the
concrete resolution of a non-flex scalar against the container and viewport
dimensions (the Python call `scalar.resolve_dimension(size, viewport)`; the
`Scalar` class itself is not in the sampled source).  `Cells` resolves to its
value; `Percent` resolves to its value as a percentage of the container
dimension.  The resolver never invokes it on a flex scalar; on that variant we
return `0`. -/
def Scalar.resolve_dimension (s : Scalar) (size viewport : ℚ) : ℚ :=
  match s with
  | .cells v => v
  | .percent v => v * size / 100
  | .fraction _ => 0

/-- Python's `itertools.accumulate`: running partial sums, inclusive. -/
def accumulate (l : List ℚ) : List ℚ :=
  (l.scanl (· + ·) 0).tail

/-- Python's extended slice `l[::2]`: every element at an even index. -/
def everyOther {α : Type} : List α → List α
  | [] => []
  | [a] => [a]
  | a :: _ :: rest => a :: everyOther rest

/-- Lines 31-56 of `_resolve.py`: classify each scalar (flex scalars get
`none`, concrete scalars are resolved immediately), sum the flex weights into
`total_fraction`, and either distribute the clamped remainder over the flex
scalars (`total_fraction ≠ 0`) or keep the concrete resolutions as they are.
In the latter branch the Python code casts `[fraction for _, fraction in
resolved]` to `list[Fraction]`; if a flex entry is present there its residual
`None` makes the subsequent offset accumulation raise, which we model by
`mapM` returning `none`.

One deliberate idealisation: the source computes `total_fraction` as
`Fraction.from_float(sum(scalar.value ...))`, a binary64 float summation
rounded *before* the exact conversion, while this model sums the weights
exactly in `ℚ`.  The two coincide whenever the float additions are exact
(integer weights, and more generally weights whose running sums stay
representable in 53 bits), which covers every concrete scenario below; for
weights like 0.1 the float sum differs by an ulp and the program's output
deviates from this model (see the shortfall evaluation at the end of the
file). -/
def resolve_fractions (dimensions : List Scalar) (total gutter : ℤ)
    (size viewport : ℚ) : Option (List ℚ) :=
  let resolved : List (Scalar × Option ℚ) :=
    dimensions.map fun scalar =>
      (scalar,
        if scalar.is_fraction then none
        else some (scalar.resolve_dimension size viewport))
  let total_fraction : ℚ :=
    ((resolved.filter fun p => p.2.isNone).map fun p => p.1.value).sum
  if total_fraction ≠ 0 then
    let total_gutter : ℤ := gutter * ((dimensions.length : ℤ) - 1)
    let consumed : ℚ := (resolved.filterMap Prod.snd).sum
    let remaining : ℚ := max 0 ((total : ℚ) - (total_gutter : ℚ) - consumed)
    let fraction_unit : ℚ := remaining / total_fraction
    some (resolved.map fun p =>
      match p.2 with
      | none => p.1.value * fraction_unit
      | some fraction => fraction)
  else
    resolved.mapM Prod.snd

/-- Lines 11-78 of `_resolve.py`: resolve a list of dimensions into
`(offset, length)` pairs.  The offsets are the floors of the running sums of
the resolved sizes interleaved with the gutter; each length is the difference
between the end offset and the start offset of its track. -/
def resolve (dimensions : List Scalar) (total gutter : ℤ)
    (size viewport : ℚ) : Option (List (ℤ × ℤ)) :=
  (resolve_fractions dimensions total gutter size viewport).map
    fun resolved_fractions =>
      let fraction_gutter : ℚ := (gutter : ℚ)
      let offsets : List ℤ :=
        0 :: (accumulate (resolved_fractions.flatMap fun fraction =>
          [fraction, fraction_gutter])).map fun fraction => ⌊fraction⌋
      let starts := everyOther offsets
      let ends := everyOther offsets.tail
      starts.zip (List.zipWith (fun offset1 offset2 => offset2 - offset1)
        starts ends)

/-- The total flex weight of a track list (line 40-42 of `_resolve.py`,
expressed directly over the scalars). -/
def total_flex (tracks : List Scalar) : ℚ :=
  ((tracks.filter fun s => s.is_fraction).map Scalar.value).sum

/-- The sum of the concrete resolutions of the non-flex tracks
(the `consumed` quantity of line 46, expressed directly over the scalars). -/
def consumed_size (tracks : List Scalar) (size viewport : ℚ) : ℚ :=
  ((tracks.filter fun s => s.is_fraction = false).map
    fun s => s.resolve_dimension size viewport).sum

/-- Recursive view of the offset stage of `resolve`: with running sum `c`, a
track of resolved size `f` yields the pair `(⌊c⌋, ⌊c + f⌋ - ⌊c⌋)` and the
running sum advances by `f + gutter`. -/
def tile (gutter : ℚ) : ℚ → List ℚ → List (ℤ × ℤ)
  | _, [] => []
  | c, f :: rest => (⌊c⌋, ⌊c + f⌋ - ⌊c⌋) :: tile gutter (c + f + gutter) rest

/-- The offset list of `resolve` generalised over the initial running sum. -/
def offsetsFrom (gutter c : ℚ) (fs : List ℚ) : List ℤ :=
  ⌊c⌋ :: (((fs.flatMap fun f => [f, gutter]).scanl (· + ·) c).tail).map
    fun x => ⌊x⌋

/-- The zip/slice stage of `resolve` generalised over the initial running
sum. -/
def layoutFrom (gutter c : ℚ) (fs : List ℚ) : List (ℤ × ℤ) :=
  (everyOther (offsetsFrom gutter c fs)).zip
    (List.zipWith (fun offset1 offset2 => offset2 - offset1)
      (everyOther (offsetsFrom gutter c fs))
      (everyOther (offsetsFrom gutter c fs).tail))

lemma scanl_add_eq_cons (c : ℚ) (l : List ℚ) :
    l.scanl (· + ·) c = c :: (l.scanl (· + ·) c).tail := by
  cases l <;> rfl

lemma offsetsFrom_nil (g c : ℚ) : offsetsFrom g c [] = [⌊c⌋] := rfl

lemma offsetsFrom_cons (g c f : ℚ) (rest : List ℚ) :
    offsetsFrom g c (f :: rest) =
      ⌊c⌋ :: ⌊c + f⌋ :: offsetsFrom g (c + f + g) rest := by
  unfold offsetsFrom
  rw [List.flatMap_cons]
  show ⌊c⌋ :: ((List.scanl (· + ·) c
      (f :: g :: List.flatMap rest fun f => [f, g])).tail).map (fun x => ⌊x⌋) = _
  rw [List.scanl, List.scanl]
  rw [scanl_add_eq_cons (c + f + g)]
  simp

lemma layoutFrom_eq_tile (g : ℚ) (fs : List ℚ) :
    ∀ c, layoutFrom g c fs = tile g c fs := by
  induction fs with
  | nil =>
    intro c
    simp [layoutFrom, offsetsFrom_nil, everyOther, tile]
  | cons f rest ih =>
    intro c
    rw [layoutFrom, offsetsFrom_cons, List.tail_cons]
    rw [show everyOther (⌊c⌋ :: ⌊c + f⌋ :: offsetsFrom g (c + f + g) rest) =
        ⌊c⌋ :: everyOther (offsetsFrom g (c + f + g) rest) from rfl]
    rw [show everyOther (⌊c + f⌋ :: offsetsFrom g (c + f + g) rest) =
        ⌊c + f⌋ :: everyOther (offsetsFrom g (c + f + g) rest).tail from rfl]
    rw [List.zipWith_cons_cons, List.zip_cons_cons]
    show _ :: layoutFrom g (c + f + g) rest = tile g c (f :: rest)
    rw [ih (c + f + g), tile]

lemma pipeline_eq_tile (g : ℚ) (fs : List ℚ) :
    (everyOther (0 :: (accumulate (fs.flatMap fun fraction => [fraction, g])).map
        fun fraction => ⌊fraction⌋)).zip
      (List.zipWith (fun offset1 offset2 => offset2 - offset1)
        (everyOther (0 :: (accumulate (fs.flatMap fun fraction => [fraction, g])).map
          fun fraction => ⌊fraction⌋))
        (everyOther ((0 : ℤ) :: (accumulate (fs.flatMap fun fraction => [fraction, g])).map
          fun fraction => ⌊fraction⌋).tail)) = tile g 0 fs := by
  rw [← layoutFrom_eq_tile g fs 0]
  rw [show (0 : ℤ) = ⌊(0 : ℚ)⌋ by simp]
  rfl

/-- Partial weighted sum: the running total consumed by the first `i` tracks
(track sizes plus one gutter each). -/
def sumTo (g : ℚ) (fs : List ℚ) (i : ℕ) : ℚ :=
  ((fs.take i).map fun f => f + g).sum

lemma sumTo_zero (g : ℚ) (fs : List ℚ) : sumTo g fs 0 = 0 := rfl

lemma sumTo_succ_cons (g f : ℚ) (rest : List ℚ) (i : ℕ) :
    sumTo g (f :: rest) (i + 1) = (f + g) + sumTo g rest i := by
  simp [sumTo]

lemma tile_length (g : ℚ) (fs : List ℚ) : ∀ c, (tile g c fs).length = fs.length := by
  induction fs with
  | nil => intro c; rfl
  | cons f rest ih => intro c; simp [tile, ih]

lemma tile_chain (g : ℤ) (fs : List ℚ) :
    ∀ c, List.Chain' (fun p q : ℤ × ℤ => q.1 = p.1 + p.2 + g)
      (tile (g : ℚ) c fs) := by
  induction fs with
  | nil => intro c; exact List.chain'_nil
  | cons f rest ih =>
    intro c
    rw [tile, List.chain'_cons']
    refine ⟨?_, ih (c + f + (g : ℚ))⟩
    intro q hq
    cases rest with
    | nil => simp [tile] at hq
    | cons f' rest' =>
      rw [tile, List.head?_cons, Option.mem_def, Option.some.injEq] at hq
      subst hq
      show ⌊c + f + (g : ℚ)⌋ = ⌊c⌋ + (⌊c + f⌋ - ⌊c⌋) + g
      rw [Int.floor_add_int]
      ring

lemma tile_sum (g : ℤ) (fs : List ℚ) :
    ∀ c, ((tile (g : ℚ) c fs).map Prod.snd).sum =
      ⌊c + fs.sum + (fs.length : ℚ) * (g : ℚ)⌋ - (fs.length : ℤ) * g - ⌊c⌋ := by
  induction fs with
  | nil =>
    intro c
    simp [tile]
  | cons f rest ih =>
    intro c
    rw [tile, List.map_cons, List.sum_cons, ih (c + f + (g : ℚ))]
    have harg : (c + f + (g : ℚ)) + rest.sum + (rest.length : ℚ) * (g : ℚ) =
        (c + (f :: rest).sum + (((f :: rest).length : ℚ) * (g : ℚ) - (g : ℚ))) + (g : ℚ) := by
      simp [List.sum_cons]
      ring
    have harg2 : c + (f :: rest).sum + (((f :: rest).length : ℚ) * (g : ℚ) - (g : ℚ)) + (g : ℚ) =
        c + (f :: rest).sum + ((f :: rest).length : ℚ) * (g : ℚ) := by ring
    rw [harg, harg2]
    have hfl : ⌊c + f + (g : ℚ)⌋ = ⌊c + f⌋ + g := Int.floor_add_int (c + f) g
    rw [hfl]
    simp only [List.length_cons]
    push_cast
    ring

lemma tile_get (g : ℚ) (fs : List ℚ) :
    ∀ (c : ℚ) (i : ℕ) (h1 : i < (tile g c fs).length) (h2 : i < fs.length),
      (tile g c fs).get ⟨i, h1⟩ =
        (⌊c + sumTo g fs i⌋,
          ⌊c + sumTo g fs i + fs.get ⟨i, h2⟩⌋ - ⌊c + sumTo g fs i⌋) := by
  induction fs with
  | nil => intro c i h1 h2; exact absurd h2 (Nat.not_lt_zero i)
  | cons f rest ih =>
    intro c i h1 h2
    cases i with
    | zero =>
      simp [tile, sumTo_zero]
    | succ i =>
      have h1' : i < (tile g (c + f + g) rest).length := by
        rw [tile_length]
        rw [tile_length] at h1
        exact Nat.lt_of_succ_lt_succ h1
      have h2' : i < rest.length := Nat.lt_of_succ_lt_succ h2
      have : (tile g c (f :: rest)).get ⟨i + 1, h1⟩ =
          (tile g (c + f + g) rest).get ⟨i, h1'⟩ := rfl
      rw [this, ih (c + f + g) i h1' h2']
      have hs : (c + f + g) + sumTo g rest i = c + sumTo g (f :: rest) (i + 1) := by
        rw [sumTo_succ_cons]
        ring
      rw [hs]
      rfl

lemma tile_snd_nonneg (g : ℚ) (fs : List ℚ) (hfs : ∀ f ∈ fs, 0 ≤ f) :
    ∀ c, ∀ p ∈ tile g c fs, 0 ≤ p.2 := by
  induction fs with
  | nil => intro c p hp; simp [tile] at hp
  | cons f rest ih =>
    intro c p hp
    rw [tile, List.mem_cons] at hp
    rcases hp with hp | hp
    · subst hp
      show (0 : ℤ) ≤ ⌊c + f⌋ - ⌊c⌋
      have : ⌊c⌋ ≤ ⌊c + f⌋ := by
        apply Int.floor_mono
        have : 0 ≤ f := hfs f (List.mem_cons_self f rest)
        linarith
      omega
    · exact ih (fun x hx => hfs x (List.mem_cons_of_mem f hx)) (c + f + g) p hp

/-- The length produced for one track differs from its exact rational size by
strictly less than one. -/
lemma floor_window_dev (x f : ℚ) : |((⌊x + f⌋ - ⌊x⌋ : ℤ) : ℚ) - f| < 1 := by
  have h1 := Int.lt_floor_add_one (x + f)
  have h2 := Int.floor_le (x + f)
  have h3 := Int.lt_floor_add_one x
  have h4 := Int.floor_le x
  rw [abs_lt]
  push_cast
  constructor <;> linarith

lemma resolved_filter_values (dims : List Scalar) (size viewport : ℚ) :
    (((dims.map fun scalar => (scalar, if scalar.is_fraction then none
        else some (scalar.resolve_dimension size viewport))).filter
      fun p => p.2.isNone).map fun p => p.1.value) =
    (dims.filter fun s => s.is_fraction).map Scalar.value := by
  induction dims with
  | nil => rfl
  | cons s rest ih => cases hsf : s.is_fraction <;> simp [hsf, ih]

lemma resolved_filterMap_snd (dims : List Scalar) (size viewport : ℚ) :
    ((dims.map fun scalar => (scalar, if scalar.is_fraction then none
        else some (scalar.resolve_dimension size viewport))).filterMap Prod.snd) =
    (dims.filter fun s => s.is_fraction = false).map
      fun s => s.resolve_dimension size viewport := by
  induction dims with
  | nil => rfl
  | cons s rest ih => cases hsf : s.is_fraction <;> simp [hsf, ih]

lemma resolved_map_unit (dims : List Scalar) (size viewport u : ℚ) :
    ((dims.map fun scalar => (scalar, if scalar.is_fraction then none
        else some (scalar.resolve_dimension size viewport))).map fun p =>
      match p.2 with
      | none => p.1.value * u
      | some fraction => fraction) =
    dims.map fun s => if s.is_fraction then s.value * u
      else s.resolve_dimension size viewport := by
  induction dims with
  | nil => rfl
  | cons s rest ih => cases hsf : s.is_fraction <;> simp [hsf, ih]

lemma mapM_loop_cons_none (a : Scalar) (l : List (Scalar × Option ℚ))
    (acc : List ℚ) :
    List.mapM.loop Prod.snd ((a, (none : Option ℚ)) :: l) acc = none := rfl

lemma mapM_loop_cons_some (a : Scalar) (b : ℚ) (l : List (Scalar × Option ℚ))
    (acc : List ℚ) :
    List.mapM.loop Prod.snd ((a, some b) :: l) acc =
      List.mapM.loop Prod.snd l (b :: acc) := rfl

lemma mapM_loop_flex_none (size viewport : ℚ) (s0 : Scalar)
    (hf : s0.is_fraction = true) :
    ∀ (dims : List Scalar), s0 ∈ dims → ∀ (acc : List ℚ),
      List.mapM.loop Prod.snd (dims.map fun scalar => (scalar,
        if scalar.is_fraction then none
        else some (scalar.resolve_dimension size viewport))) acc = none := by
  intro dims
  induction dims with
  | nil => intro h; cases h
  | cons s rest ih =>
    intro hmem acc
    rcases List.mem_cons.mp hmem with h | h
    · subst h
      rw [List.map_cons]
      rw [show (if s0.is_fraction then (none : Option ℚ)
          else some (s0.resolve_dimension size viewport)) = none by simp [hf]]
      exact mapM_loop_cons_none _ _ _
    · rw [List.map_cons]
      cases hsf : s.is_fraction with
      | false =>
        rw [show (if (false = true) then (none : Option ℚ)
            else some (s.resolve_dimension size viewport)) =
            some (s.resolve_dimension size viewport) from rfl]
        rw [mapM_loop_cons_some]
        exact ih h _
      | true =>
        rw [show (if (true = true) then (none : Option ℚ)
            else some (s.resolve_dimension size viewport)) = none from rfl]
        exact mapM_loop_cons_none _ _ _

lemma mapM_loop_noflex (size viewport : ℚ) :
    ∀ (dims : List Scalar), (∀ s ∈ dims, s.is_fraction = false) →
      ∀ (acc : List ℚ),
      List.mapM.loop Prod.snd (dims.map fun scalar => (scalar,
        if scalar.is_fraction then none
        else some (scalar.resolve_dimension size viewport))) acc =
      some (acc.reverse ++ dims.map fun s => s.resolve_dimension size viewport) := by
  intro dims
  induction dims with
  | nil => intro _ acc; simp [List.mapM.loop]
  | cons s rest ih =>
    intro h acc
    have hs := h s (List.mem_cons_self s rest)
    rw [List.map_cons]
    rw [show (if s.is_fraction then (none : Option ℚ)
        else some (s.resolve_dimension size viewport)) =
        some (s.resolve_dimension size viewport) by simp [hs]]
    rw [mapM_loop_cons_some]
    rw [ih (fun x hx => h x (List.mem_cons_of_mem s hx)) _]
    simp

lemma resolved_mapM_none (dims : List Scalar) (size viewport : ℚ)
    (s0 : Scalar) (hs0 : s0 ∈ dims) (hf : s0.is_fraction = true) :
    ((dims.map fun scalar => (scalar, if scalar.is_fraction then none
        else some (scalar.resolve_dimension size viewport))).mapM Prod.snd) =
      none :=
  mapM_loop_flex_none size viewport s0 hf dims hs0 []

lemma resolved_mapM_noflex (dims : List Scalar) (size viewport : ℚ)
    (h : ∀ s ∈ dims, s.is_fraction = false) :
    ((dims.map fun scalar => (scalar, if scalar.is_fraction then none
        else some (scalar.resolve_dimension size viewport))).mapM Prod.snd) =
    some (dims.map fun s => s.resolve_dimension size viewport) := by
  have := mapM_loop_noflex size viewport dims h []
  simpa using this

/-- The flex remainder unit of line 48: clamped remainder over total weight. -/
def fraction_unit (tracks : List Scalar) (total gutter : ℤ)
    (size viewport : ℚ) : ℚ :=
  max 0 ((total : ℚ) - ((gutter * ((tracks.length : ℤ) - 1) : ℤ) : ℚ)
    - consumed_size tracks size viewport) / total_flex tracks

/-- Branch `total_fraction ≠ 0` of `resolve_fractions`: each flex track
resolves to its weight times the fraction unit, concrete tracks keep their
resolutions. -/
lemma resolve_fractions_flex (dims : List Scalar) (total gutter : ℤ)
    (size viewport : ℚ) (h : total_flex dims ≠ 0) :
    resolve_fractions dims total gutter size viewport =
      some (dims.map fun s =>
        if s.is_fraction then s.value * fraction_unit dims total gutter size viewport
        else s.resolve_dimension size viewport) := by
  unfold resolve_fractions
  simp only []
  rw [resolved_filter_values]
  rw [show ((dims.filter fun s => s.is_fraction).map Scalar.value).sum =
      total_flex dims from rfl]
  rw [if_pos h]
  rw [resolved_filterMap_snd]
  rw [show ((dims.filter fun s => s.is_fraction = false).map
      fun s => s.resolve_dimension size viewport).sum =
      consumed_size dims size viewport from rfl]
  rw [resolved_map_unit]
  rfl

/-- Branch `total_fraction = 0` of `resolve_fractions` with a flex track
present: the residual unresolved entry makes the computation fail. -/
lemma resolve_fractions_zero_flex (dims : List Scalar) (total gutter : ℤ)
    (size viewport : ℚ) (h : total_flex dims = 0)
    (s0 : Scalar) (hs0 : s0 ∈ dims) (hf : s0.is_fraction = true) :
    resolve_fractions dims total gutter size viewport = none := by
  unfold resolve_fractions
  simp only []
  rw [resolved_filter_values]
  rw [show ((dims.filter fun s => s.is_fraction).map Scalar.value).sum =
      total_flex dims from rfl]
  rw [if_neg (by simp [h])]
  exact resolved_mapM_none dims size viewport s0 hs0 hf

/-- Branch `total_fraction = 0` of `resolve_fractions` with no flex track:
the concrete resolutions pass through unchanged. -/
lemma resolve_fractions_noflex (dims : List Scalar) (total gutter : ℤ)
    (size viewport : ℚ) (h : ∀ s ∈ dims, s.is_fraction = false) :
    resolve_fractions dims total gutter size viewport =
      some (dims.map fun s => s.resolve_dimension size viewport) := by
  have hflex : total_flex dims = 0 := by
    unfold total_flex
    rw [List.filter_eq_nil_iff.mpr]
    · rfl
    · intro s hs
      simp [h s hs]
  unfold resolve_fractions
  simp only []
  rw [resolved_filter_values]
  rw [show ((dims.filter fun s => s.is_fraction).map Scalar.value).sum =
      total_flex dims from rfl]
  rw [if_neg (by simp [hflex])]
  exact resolved_mapM_noflex dims size viewport h

/-- `resolve` is `tile` applied to the resolved fraction list. -/
lemma resolve_eq_tile (dimensions : List Scalar) (total gutter : ℤ)
    (size viewport : ℚ) :
    resolve dimensions total gutter size viewport =
      (resolve_fractions dimensions total gutter size viewport).map
        fun fs => tile (gutter : ℚ) 0 fs := by
  unfold resolve
  cases resolve_fractions dimensions total gutter size viewport with
  | none => rfl
  | some fs =>
    simp only [Option.map_some']
    exact congrArg some (pipeline_eq_tile (gutter : ℚ) fs)

lemma sum_int_valued (l : List ℚ) (h : ∀ x ∈ l, ∃ k : ℤ, x = (k : ℚ)) :
    ∃ m : ℤ, l.sum = (m : ℚ) := by
  induction l with
  | nil => exact ⟨0, by simp⟩
  | cons x rest ih =>
    rcases h x (List.mem_cons_self x rest) with ⟨k, hk⟩
    rcases ih (fun y hy => h y (List.mem_cons_of_mem x hy)) with ⟨m, hm⟩
    refine ⟨k + m, ?_⟩
    rw [List.sum_cons, hk, hm]
    push_cast
    ring

lemma tile_int_get (g : ℤ) (fs : List ℚ)
    (hfs : ∀ f ∈ fs, ∃ k : ℤ, f = (k : ℚ))
    (i : ℕ) (h1 : i < (tile (g : ℚ) 0 fs).length) (h2 : i < fs.length) :
    (((tile (g : ℚ) 0 fs).get ⟨i, h1⟩).2 : ℚ) = fs.get ⟨i, h2⟩ := by
  rw [tile_get (g : ℚ) fs 0 i h1 h2]
  have hA : ∃ m : ℤ, (0 : ℚ) + sumTo (g : ℚ) fs i = (m : ℚ) := by
    have := sum_int_valued ((fs.take i).map fun f => f + (g : ℚ)) ?_
    · rcases this with ⟨m, hm⟩
      exact ⟨m, by rw [zero_add]; exact hm⟩
    · intro x hx
      rcases List.mem_map.mp hx with ⟨f, hf, hfx⟩
      rcases hfs f (List.mem_of_mem_take hf) with ⟨k, hk⟩
      exact ⟨k + g, by rw [← hfx, hk]; push_cast; ring⟩
  rcases hA with ⟨m, hm⟩
  rcases hfs (fs.get ⟨i, h2⟩) (fs.get_mem i h2) with ⟨k, hk⟩
  rw [hm, hk]
  rw [show (m : ℚ) + (k : ℚ) = ((m + k : ℤ) : ℚ) by push_cast; ring]
  rw [Int.floor_intCast, Int.floor_intCast]
  push_cast
  ring

lemma total_flex_nonneg (tracks : List Scalar)
    (h : ∀ s ∈ tracks, s.is_fraction = true → 0 ≤ s.value) :
    0 ≤ total_flex tracks := by
  apply List.sum_nonneg
  intro x hx
  rcases List.mem_map.mp hx with ⟨s, hs, hsx⟩
  rcases List.mem_filter.mp hs with ⟨hmem, hfrac⟩
  rw [← hsx]
  exact h s hmem hfrac

lemma total_flex_map_fraction (ws : List ℚ) :
    total_flex (ws.map Scalar.fraction) = ws.sum := by
  induction ws with
  | nil => rfl
  | cons w rest ih =>
    simp only [List.map_cons]
    rw [show total_flex (Scalar.fraction w :: rest.map Scalar.fraction) =
        w + total_flex (rest.map Scalar.fraction) by
      simp [total_flex, Scalar.is_fraction, Scalar.value]]
    rw [ih, List.sum_cons]

lemma consumed_map_fraction (ws : List ℚ) (size viewport : ℚ) :
    consumed_size (ws.map Scalar.fraction) size viewport = 0 := by
  unfold consumed_size
  rw [List.filter_eq_nil_iff.mpr]
  · rfl
  · intro s hs
    rcases List.mem_map.mp hs with ⟨w, _, hws⟩
    rw [← hws]
    simp [Scalar.is_fraction]

lemma sum_map_mul (ws : List ℚ) (u : ℚ) :
    (ws.map fun w => w * u).sum = ws.sum * u := by
  induction ws with
  | nil => simp
  | cons w rest ih => simp [ih, add_mul]

/-- C1: for every track list, total ≥ 0 and gutter ≥ 0, any result of
`resolve` has first offset 0, and every consecutive pair of entries satisfies
`offset[i+1] = offset[i] + length[i] + gutter` exactly: the tracks tile the
axis with no gaps or overlaps beyond the declared gutter. -/
theorem resolve_tiling (tracks : List Scalar) (total gutter : ℤ)
    (size viewport : ℚ) (htotal : 0 ≤ total) (hgutter : 0 ≤ gutter)
    (result : List (ℤ × ℤ))
    (hres : resolve tracks total gutter size viewport = some result) :
    (∀ p ∈ result.head?, p.1 = 0) ∧
      List.Chain' (fun p q : ℤ × ℤ => q.1 = p.1 + p.2 + gutter) result := by
  rw [resolve_eq_tile] at hres
  rcases Option.map_eq_some'.mp hres with ⟨fs, _, htile⟩
  subst htile
  constructor
  · intro p hp
    cases fs with
    | nil => simp [tile] at hp
    | cons f rest =>
      rw [tile, List.head?_cons, Option.mem_def, Option.some.injEq] at hp
      subst hp
      simp
  · exact tile_chain gutter fs 0

/-- Witness for `resolve_tiling`: scenario `[Cells(3), Flex(1), Cells(1)]`,
`total = 20`, `gutter = 1`. -/
theorem resolve_tiling_witness :
    (∀ p ∈ ([((0 : ℤ), (3 : ℤ)), (4, 14), (19, 1)] : List (ℤ × ℤ)).head?,
        p.1 = 0) ∧
      List.Chain' (fun p q : ℤ × ℤ => q.1 = p.1 + p.2 + 1)
        [((0 : ℤ), (3 : ℤ)), (4, 14), (19, 1)] :=
  resolve_tiling [.cells 3, .fraction 1, .cells 1] 20 1 40 40
    (by norm_num) (by norm_num) [(0, 3), (4, 14), (19, 1)]
    (by norm_num [resolve, resolve_fractions, accumulate, everyOther,
      Scalar.value, Scalar.is_fraction, Scalar.resolve_dimension,
      List.scanl, List.filterMap])

/-- C2 (counterexample): scenario 1 of the spec does not produce the claimed
pairs `(0,3), (4,13), (18,1)`. -/
theorem scenario1_ne_claimed :
    resolve [.cells 3, .fraction 1, .cells 1] 20 1 40 40 ≠
      some [(0, 3), (4, 13), (18, 1)] := by
  norm_num [resolve, resolve_fractions, accumulate, everyOther,
    Scalar.value, Scalar.is_fraction, Scalar.resolve_dimension,
    List.scanl, List.filterMap]

/-- C2 (amended): for `[Cells(3), Flex(1), Cells(1)]`, `total = 20`,
`gutter = 1`, `resolve` returns exactly `(0,3), (4,14), (19,1)`: the single
flex track receives the full remainder 14 = 20 - 2·1 - 4, and the final
track starts at 19. -/
theorem scenario1_eval :
    resolve [.cells 3, .fraction 1, .cells 1] 20 1 40 40 =
      some [(0, 3), (4, 14), (19, 1)] := by
  norm_num [resolve, resolve_fractions, accumulate, everyOther,
    Scalar.value, Scalar.is_fraction, Scalar.resolve_dimension,
    List.scanl, List.filterMap]

/-- C3 (counterexample): for `[Flex(1), Flex(1)]`, `total = 20`, `gutter = 1`,
`resolve` does not return the pairs `(0,10), (11,9)` claimed (the first track
does not absorb the extra odd unit). -/
theorem scenario2_ne_claimed :
    resolve [.fraction 1, .fraction 1] 20 1 40 40 ≠
      some [(0, 10), (11, 9)] := by
  norm_num [resolve, resolve_fractions, accumulate, everyOther,
    Scalar.value, Scalar.is_fraction, Scalar.resolve_dimension,
    List.scanl, List.filterMap]

/-- C3 (amended): for `[Flex(1), Flex(1)]`, `total = 20`, `gutter = 1`, the
remainder of 19 is split as 9 and 10: `resolve` returns exactly the pairs
`(0,9)` and `(10,10)`; the floor-accumulate rounding floors the earlier
cumulative sums down, so the *last* track absorbs the extra odd unit. -/
theorem scenario2_eval :
    resolve [.fraction 1, .fraction 1] 20 1 40 40 =
      some [(0, 9), (10, 10)] := by
  norm_num [resolve, resolve_fractions, accumulate, everyOther,
    Scalar.value, Scalar.is_fraction, Scalar.resolve_dimension,
    List.scanl, List.filterMap]

/-- C10: if the track list contains a flex track but the flex weights sum to
zero (e.g. a single `Flex(0)`), `resolve` does not return a result: the
zero-total-weight branch leaves the flex entries unresolved in the list it
treats as fully resolved, and the offset accumulation fails. -/
theorem zero_weight_flex_fails (tracks : List Scalar) (total gutter : ℤ)
    (size viewport : ℚ) (s0 : Scalar) (hs0 : s0 ∈ tracks)
    (hf : s0.is_fraction = true) (hz : total_flex tracks = 0) :
    resolve tracks total gutter size viewport = none := by
  rw [resolve_eq_tile,
    resolve_fractions_zero_flex tracks total gutter size viewport hz s0 hs0 hf]
  rfl

/-- Witness for `zero_weight_flex_fails`: the single track `Flex(0)`. -/
theorem zero_weight_flex_fails_witness :
    resolve [.fraction 0] 20 1 40 40 = none :=
  zero_weight_flex_fails [.fraction 0] 20 1 40 40 (.fraction 0)
    (List.mem_singleton_self _) rfl
    (by norm_num [total_flex, Scalar.is_fraction, Scalar.value])

/-- C9 (counterexample): a call with negative `total` and negative `gutter`
is not rejected: `resolve` processes it and returns a result list. -/
theorem invalid_args_not_rejected_cex :
    resolve [.cells 1] (-5) (-1) 40 40 = some [(0, 1)] := by
  norm_num [resolve, resolve_fractions, accumulate, everyOther,
    Scalar.value, Scalar.is_fraction, Scalar.resolve_dimension,
    List.scanl, List.filterMap, List.mapM, List.mapM.loop]

/-- C9 (amended): `resolve` performs no boundary validation at all: for every
`total` and `gutter`, of any sign, it returns a full result list (one entry
per track) whenever the track list has no flex track or a nonzero total flex
weight; a negative `total` merely clamps the flex remainder at zero. -/
theorem no_boundary_validation (tracks : List Scalar) (total gutter : ℤ)
    (size viewport : ℚ)
    (h : (∀ s ∈ tracks, s.is_fraction = false) ∨ total_flex tracks ≠ 0) :
    ∃ result, resolve tracks total gutter size viewport = some result ∧
      result.length = tracks.length := by
  rcases h with h | h
  · refine ⟨tile (gutter : ℚ) 0
      (tracks.map fun s => s.resolve_dimension size viewport), ?_, ?_⟩
    · rw [resolve_eq_tile,
        resolve_fractions_noflex tracks total gutter size viewport h]
      rfl
    · rw [tile_length]
      exact List.length_map tracks _
  · refine ⟨tile (gutter : ℚ) 0 (tracks.map fun s =>
      if s.is_fraction then
        s.value * fraction_unit tracks total gutter size viewport
      else s.resolve_dimension size viewport), ?_, ?_⟩
    · rw [resolve_eq_tile,
        resolve_fractions_flex tracks total gutter size viewport h]
      rfl
    · rw [tile_length]
      exact List.length_map tracks _

/-- Witness for `no_boundary_validation`: `[Cells(1)]` with `total = -5`,
`gutter = -1`. -/
theorem no_boundary_validation_witness :
    ∃ result, resolve [Scalar.cells 1] (-5) (-1) 40 40 = some result ∧
      result.length = ([Scalar.cells 1] : List Scalar).length :=
  no_boundary_validation [Scalar.cells 1] (-5) (-1) 40 40
    (Or.inl fun s hs => by rw [List.mem_singleton.mp hs]; rfl)

/-- C7 (counterexample): with zero flex tracks, a resolved length does not in
general equal the concrete resolution of its scalar: for the single track
`Cells(5/2)` the concrete resolution is the non-integer rational `5/2`, while
`resolve` returns the integer length 2. -/
theorem noflex_passthrough_cex :
    resolve [Scalar.cells (5 / 2)] 10 0 40 40 = some [(0, 2)] ∧
      ((2 : ℤ) : ℚ) ≠ (Scalar.cells (5 / 2)).resolve_dimension 40 40 := by
  constructor
  · norm_num [resolve, resolve_fractions, accumulate, everyOther,
      Scalar.value, Scalar.is_fraction, Scalar.resolve_dimension,
      List.scanl, List.filterMap, List.mapM, List.mapM.loop]
  · norm_num [Scalar.resolve_dimension]

/-- C7 (amended): with zero flex tracks and integer concrete resolutions,
each resolved length equals the concrete resolution of the corresponding
scalar exactly, unmodified by redistribution; when a concrete resolution is a
non-integer rational the output length is the floor-accumulate difference
instead (see `noflex_passthrough_cex`). -/
theorem noflex_passthrough_int (tracks : List Scalar) (total gutter : ℤ)
    (size viewport : ℚ)
    (hnf : ∀ s ∈ tracks, s.is_fraction = false)
    (hint : ∀ s ∈ tracks, ∃ k : ℤ, s.resolve_dimension size viewport = (k : ℚ)) :
    ∃ result, resolve tracks total gutter size viewport = some result ∧
      result.length = tracks.length ∧
      ∀ (i : ℕ) (h1 : i < result.length) (h2 : i < tracks.length),
        ((result.get ⟨i, h1⟩).2 : ℚ) =
          (tracks.get ⟨i, h2⟩).resolve_dimension size viewport := by
  refine ⟨tile (gutter : ℚ) 0
    (tracks.map fun s => s.resolve_dimension size viewport), ?_, ?_, ?_⟩
  · rw [resolve_eq_tile,
      resolve_fractions_noflex tracks total gutter size viewport hnf]
    rfl
  · rw [tile_length]
    exact List.length_map tracks _
  · intro i h1 h2
    have h2' : i < (tracks.map fun s => s.resolve_dimension size viewport).length := by
      rw [List.length_map]; exact h2
    rw [tile_int_get gutter _ ?_ i h1 h2']
    · rw [List.get_map]
    · intro f hf
      rcases List.mem_map.mp hf with ⟨s, hs, hsf⟩
      rcases hint s hs with ⟨k, hk⟩
      exact ⟨k, by rw [← hsf, hk]⟩

/-- Witness for `noflex_passthrough_int`: `[Cells(3), Cells(1)]`,
`total = 20`, `gutter = 1`. -/
theorem noflex_passthrough_int_witness :
    ∃ result, resolve [Scalar.cells 3, Scalar.cells 1] 20 1 40 40 =
        some result ∧
      result.length = ([Scalar.cells 3, Scalar.cells 1] : List Scalar).length ∧
      ∀ (i : ℕ) (h1 : i < result.length)
        (h2 : i < ([Scalar.cells 3, Scalar.cells 1] : List Scalar).length),
        ((result.get ⟨i, h1⟩).2 : ℚ) =
          (([Scalar.cells 3, Scalar.cells 1] : List Scalar).get
            ⟨i, h2⟩).resolve_dimension 40 40 :=
  noflex_passthrough_int [Scalar.cells 3, Scalar.cells 1] 20 1 40 40
    (by intro s hs
        rcases List.mem_cons.mp hs with h | h
        · rw [h]; rfl
        · rw [List.mem_singleton.mp h]; rfl)
    (by intro s hs
        rcases List.mem_cons.mp hs with h | h
        · exact ⟨3, by rw [h]; rfl⟩
        · exact ⟨1, by rw [List.mem_singleton.mp h]; rfl⟩)

/-- C6: when the concrete sizes plus total gutter meet or exceed `total`,
`resolve` does not fail: the flex remainder is clamped to zero, so every flex
track resolves to length 0, and (integer-valued) concrete tracks keep their
nominal, possibly oversized lengths; in particular `[Cells(25)]`,
`total = 20`, `gutter = 0` yields exactly `[(0, 25)]`. -/
theorem overflow_policy (tracks : List Scalar) (total gutter : ℤ)
    (size viewport : ℚ)
    (hint : ∀ s ∈ tracks, s.is_fraction = false →
      ∃ k : ℤ, s.resolve_dimension size viewport = (k : ℚ))
    (hflex : (∀ s ∈ tracks, s.is_fraction = false) ∨ total_flex tracks ≠ 0)
    (hover : (total : ℚ) ≤ ((gutter * ((tracks.length : ℤ) - 1) : ℤ) : ℚ) +
      consumed_size tracks size viewport) :
    ∃ result, resolve tracks total gutter size viewport = some result ∧
      result.length = tracks.length ∧
      (∀ (i : ℕ) (h1 : i < result.length) (h2 : i < tracks.length),
        ((result.get ⟨i, h1⟩).2 : ℚ) =
          if (tracks.get ⟨i, h2⟩).is_fraction then 0
          else (tracks.get ⟨i, h2⟩).resolve_dimension size viewport) ∧
      resolve [Scalar.cells 25] 20 0 size viewport = some [(0, 25)] := by
  have hscen : resolve [Scalar.cells 25] 20 0 size viewport =
      some [(0, 25)] := by
    rw [resolve_eq_tile, resolve_fractions_noflex _ _ _ _ _
      (fun s hs => by rw [List.mem_singleton.mp hs]; rfl)]
    show some (tile ((0 : ℤ) : ℚ) 0
      [(Scalar.cells 25).resolve_dimension size viewport]) = _
    norm_num [tile, Scalar.resolve_dimension]
  have key : resolve_fractions tracks total gutter size viewport =
      some (tracks.map fun s => if s.is_fraction then 0
        else s.resolve_dimension size viewport) := by
    rcases hflex with h | h
    · rw [resolve_fractions_noflex tracks total gutter size viewport h]
      refine congrArg some (List.map_congr_left fun s hs => ?_)
      rw [h s hs]
      simp
    · rw [resolve_fractions_flex tracks total gutter size viewport h]
      have hu : fraction_unit tracks total gutter size viewport = 0 := by
        unfold fraction_unit
        rw [max_eq_left (by linarith), zero_div]
      rw [hu]
      refine congrArg some (List.map_congr_left fun s hs => ?_)
      cases hsf : s.is_fraction <;> simp
  refine ⟨tile (gutter : ℚ) 0 (tracks.map fun s =>
    if s.is_fraction then 0 else s.resolve_dimension size viewport),
    ?_, ?_, ?_, hscen⟩
  · rw [resolve_eq_tile, key]
    rfl
  · rw [tile_length]
    exact List.length_map tracks _
  · intro i h1 h2
    have h2' : i < (tracks.map fun s =>
        if s.is_fraction then 0
        else s.resolve_dimension size viewport).length := by
      rw [List.length_map]; exact h2
    rw [tile_int_get gutter _ ?_ i h1 h2']
    · rw [List.get_map]
    · intro f hf
      rcases List.mem_map.mp hf with ⟨s, hs, hsf⟩
      cases hfr : s.is_fraction with
      | true => exact ⟨0, by rw [← hsf]; simp [hfr]⟩
      | false =>
        rcases hint s hs hfr with ⟨k, hk⟩
        exact ⟨k, by rw [← hsf]; simp [hfr, hk]⟩

/-- Witness for `overflow_policy`: `[Cells(25), Flex(1)]`, `total = 20`,
`gutter = 0`. -/
theorem overflow_policy_witness :
    ∃ result, resolve [Scalar.cells 25, Scalar.fraction 1] 20 0 40 40 =
        some result ∧
      result.length = ([Scalar.cells 25, Scalar.fraction 1] : List Scalar).length ∧
      (∀ (i : ℕ) (h1 : i < result.length)
        (h2 : i < ([Scalar.cells 25, Scalar.fraction 1] : List Scalar).length),
        ((result.get ⟨i, h1⟩).2 : ℚ) =
          if (([Scalar.cells 25, Scalar.fraction 1] : List Scalar).get
              ⟨i, h2⟩).is_fraction then 0
          else (([Scalar.cells 25, Scalar.fraction 1] : List Scalar).get
            ⟨i, h2⟩).resolve_dimension 40 40) ∧
      resolve [Scalar.cells 25] 20 0 40 40 = some [(0, 25)] :=
  overflow_policy [Scalar.cells 25, Scalar.fraction 1] 20 0 40 40
    (by intro s hs hconc
        rcases List.mem_cons.mp hs with h | h
        · exact ⟨25, by rw [h]; rfl⟩
        · rw [List.mem_singleton.mp h] at hconc
          simp [Scalar.is_fraction] at hconc)
    (Or.inr (by norm_num [total_flex, Scalar.is_fraction, Scalar.value]))
    (by norm_num [consumed_size, Scalar.is_fraction, Scalar.resolve_dimension])

/-- C5: for every track list whose concrete resolutions and flex weights are
all non-negative, every `total ≥ 0` and `gutter ≥ 0`, every length in a
result of `resolve` is non-negative, even when the requested sizes exceed
`total`. -/
theorem resolve_nonneg (tracks : List Scalar) (total gutter : ℤ)
    (size viewport : ℚ)
    (hconc : ∀ s ∈ tracks, s.is_fraction = false →
      0 ≤ s.resolve_dimension size viewport)
    (hflex : ∀ s ∈ tracks, s.is_fraction = true → 0 ≤ s.value)
    (htotal : 0 ≤ total) (hgutter : 0 ≤ gutter)
    (result : List (ℤ × ℤ))
    (hres : resolve tracks total gutter size viewport = some result) :
    ∀ p ∈ result, 0 ≤ p.2 := by
  rw [resolve_eq_tile] at hres
  rcases Option.map_eq_some'.mp hres with ⟨fs, hfs, htile⟩
  subst htile
  refine tile_snd_nonneg (gutter : ℚ) fs ?_ 0
  by_cases hz : total_flex tracks = 0
  · by_cases hex : ∃ s0 ∈ tracks, s0.is_fraction = true
    · rcases hex with ⟨s0, hs0, hf0⟩
      rw [resolve_fractions_zero_flex tracks total gutter size viewport hz
        s0 hs0 hf0] at hfs
      cases hfs
    · push_neg at hex
      have hnf : ∀ s ∈ tracks, s.is_fraction = false := fun s hs =>
        Bool.eq_false_iff.mpr (hex s hs)
      rw [resolve_fractions_noflex tracks total gutter size viewport hnf] at hfs
      have hfs' := (Option.some.inj hfs).symm
      subst hfs'
      intro f hf
      rcases List.mem_map.mp hf with ⟨s, hs, hsf⟩
      rw [← hsf]
      exact hconc s hs (hnf s hs)
  · rw [resolve_fractions_flex tracks total gutter size viewport hz] at hfs
    have hfs' := (Option.some.inj hfs).symm
    subst hfs'
    intro f hf
    rcases List.mem_map.mp hf with ⟨s, hs, hsf⟩
    cases hfr : s.is_fraction with
    | true =>
      have hv : 0 ≤ s.value := hflex s hs hfr
      have hu : 0 ≤ fraction_unit tracks total gutter size viewport := by
        unfold fraction_unit
        exact div_nonneg (le_max_left _ _) (total_flex_nonneg tracks hflex)
      have heq : (if s.is_fraction then
          s.value * fraction_unit tracks total gutter size viewport
          else s.resolve_dimension size viewport) =
          s.value * fraction_unit tracks total gutter size viewport := by
        simp [hfr]
      rw [← hsf, heq]
      exact mul_nonneg hv hu
    | false =>
      have heq : (if s.is_fraction then
          s.value * fraction_unit tracks total gutter size viewport
          else s.resolve_dimension size viewport) =
          s.resolve_dimension size viewport := by
        simp [hfr]
      rw [← hsf, heq]
      exact hconc s hs hfr

/-- Witness for `resolve_nonneg`: scenario `[Cells(3), Flex(1), Cells(1)]`,
`total = 20`, `gutter = 1`, instantiated at the middle entry `(4, 14)`. -/
theorem resolve_nonneg_witness :
    (0 : ℤ) ≤ (((4 : ℤ), (14 : ℤ)) : ℤ × ℤ).2 :=
  resolve_nonneg [.cells 3, .fraction 1, .cells 1] 20 1 40 40
    (by intro s hs _
        rcases List.mem_cons.mp hs with h | h
        · rw [h]; norm_num [Scalar.resolve_dimension]
        · rcases List.mem_cons.mp h with h' | h'
          · rw [h']; norm_num [Scalar.resolve_dimension]
          · rw [List.mem_singleton.mp h']; norm_num [Scalar.resolve_dimension])
    (by intro s hs _
        rcases List.mem_cons.mp hs with h | h
        · rw [h]; norm_num [Scalar.value]
        · rcases List.mem_cons.mp h with h' | h'
          · rw [h']; norm_num [Scalar.value]
          · rw [List.mem_singleton.mp h']; norm_num [Scalar.value])
    (by norm_num) (by norm_num) [(0, 3), (4, 14), (19, 1)]
    (by norm_num [resolve, resolve_fractions, accumulate, everyOther,
      Scalar.value, Scalar.is_fraction, Scalar.resolve_dimension,
      List.scanl, List.filterMap])
    (4, 14) (by decide)

/-- C6 (counterexample): in the overflow case a concrete track does not in
general keep its nominal length: `[Cells(5/2), Flex(1)]` with `total = 1`,
`gutter = 0` over-requests, the flex track is clamped to 0, but the concrete
track resolves to length 2, not its nominal 5/2. -/
theorem overflow_policy_cex :
    resolve [Scalar.cells (5 / 2), Scalar.fraction 1] 1 0 40 40 =
      some [(0, 2), (2, 0)] ∧
      ((2 : ℤ) : ℚ) ≠ (Scalar.cells (5 / 2)).resolve_dimension 40 40 := by
  constructor
  · norm_num [resolve, resolve_fractions, accumulate, everyOther,
      Scalar.value, Scalar.is_fraction, Scalar.resolve_dimension,
      List.scanl, List.filterMap]
  · norm_num [Scalar.resolve_dimension]

/-- C4 (code evaluated at the failing input): the flex-proportionality claim
promises that for a flex-only track list the resolved lengths plus the
gutters sum to `total` exactly, but the source computes the weight total as
`Fraction.from_float(sum(scalar.value ...))`, a binary64 summation.  For the
weights `[0.1, 0.1, 0.1]` each value is the double
`3602879701896397·2⁻⁵⁵`, and the binary64 evaluation of their sum is
`5404319552844596·2⁻⁵⁴` (the last addition lands exactly halfway between
neighbouring doubles and rounds to the even mantissa), one ulp *above* three
times the value.  With `total = 20` and `gutter = 0` the fraction unit is
`20` divided by that sum, each flex share is the value times the unit, and
the offset stage — `tile`, proved equal to the source's floor-accumulate
pipeline in `resolve_eq_tile` — yields the pairs `(0,6), (6,7), (13,6)`:
the lengths sum to 19, not the promised 20. -/
theorem flex_float_sum_shortfall :
    tile 0 0
      [(3602879701896397 / 36028797018963968 : ℚ) *
          (20 / (5404319552844596 / 18014398509481984 : ℚ)),
        (3602879701896397 / 36028797018963968 : ℚ) *
          (20 / (5404319552844596 / 18014398509481984 : ℚ)),
        (3602879701896397 / 36028797018963968 : ℚ) *
          (20 / (5404319552844596 / 18014398509481984 : ℚ))] =
      [(0, 6), (6, 7), (13, 6)] ∧
    (6 : ℤ) + 7 + 6 ≠ 20 := by
  constructor
  · norm_num [tile]
  · norm_num
